import Mathlib

set_option linter.unusedVariables false

/-!
Shallow embedding of the pg-scraper repository (checkpoint store,
batch runner, match scorer / search-result pipeline), translated from:
  src/progressTracker.js   (ProgressTracker class)
  src/searchHackerNews.js  (searchHackerNewsForEssay)
  src/unnamed/part_000     (processEssaysInParallel)
JavaScript strings are modelled as Lean String values; substring tests
run on the underlying character lists.  Asynchronous effects (network
calls, file writes, timers) are modelled by explicit state threading and
event traces; concurrency inside a Promise.all group is modelled as
in-order sequential execution, which agrees with the source on every
property stated below (none depends on intra-group completion order).
-/

/-- One essay reference (the WorkItem of the design): title, canonical
url and slug, exactly the fields produced by src/scrapeEssays.js and
consumed by the search and checkpoint code. -/
structure Essay where
  title : String
  url : String
  slug : String
  deriving DecidableEq, Repr

/-- One raw Algolia search hit, with the fields read by
searchHackerNewsForEssay.  Optional fields model JS properties that may
be undefined; numeric fields are read as `x || 0` in the source. -/
structure Hit where
  objectID : String
  title : Option String
  url : Option String
  story_text : Option String
  points : Option Nat
  num_comments : Option Nat
  created_at : String
  author : String
  deriving DecidableEq, Repr

/-- The post record built by the `.map` stage of
searchHackerNewsForEssay (line 60 of src/searchHackerNews.js). -/
structure Post where
  id : String
  title : Option String
  url : Option String
  hn_url : String
  points : Nat
  num_comments : Nat
  created_at : String
  author : String
  deriving DecidableEq, Repr

/-- JS `String.prototype.toLowerCase`, modelled character-wise (ASCII
case mapping, which is what every string in the claims uses). -/
def lower (s : String) : List Char :=
  s.data.map Char.toLower

/-- JS `String.prototype.includes`: `includes s pat` holds when `pat`
occurs contiguously inside `s`. -/
def includes : List Char → List Char → Bool
  | [], pat => pat.isEmpty
  | c :: rest, pat => pat.isPrefixOf (c :: rest) || includes rest pat

/-- The `hit.story_text && hit.story_text.includes(essay.url)` test of
src/searchHackerNews.js line 57: JS truthiness skips the test when
story_text is undefined or the empty string. -/
def storyTextContains (storyText : Option String) (url : String) : Bool :=
  match storyText with
  | some st => (!(st == "")) && includes st.data url.data
  | none => false

/-- The Match Scorer: the filter predicate of searchHackerNewsForEssay,
src/searchHackerNews.js lines 47-59.  The hit title and the essay title
are lowercased; the url tests and the story_text test are performed on
the raw strings. -/
def isRelevantHit (essay : Essay) (hit : Hit) : Bool :=
  let title := lower (hit.title.getD "")
  let url := (hit.url.getD "").data
  let essayTitle := lower essay.title
  includes title essayTitle
  || includes url essay.url.data
  || includes url ("paulgraham.com/" ++ essay.slug).data
  || storyTextContains hit.story_text essay.url

/-- Modelled from the spec: the Match Scorer as claim C2 states it,
with ALL FOUR substring tests case-insensitive.  Used only to compare
against the source definition `isRelevantHit`. -/
def isRelevantHitCI (essay : Essay) (hit : Hit) : Bool :=
  includes (lower (hit.title.getD "")) (lower essay.title)
  || includes (lower (hit.url.getD "")) (lower essay.url)
  || includes (lower (hit.url.getD "")) (lower ("paulgraham.com/" ++ essay.slug))
  || (match hit.story_text with
      | some st => (!(st == "")) && includes (lower st) (lower essay.url)
      | none => false)

/-- The `.map` stage of searchHackerNewsForEssay (lines 60-69). -/
def toPost (hit : Hit) : Post :=
  { id := hit.objectID
    title := hit.title
    url := hit.url
    hn_url := "https://news.ycombinator.com/item?id=" ++ hit.objectID
    points := hit.points.getD 0
    num_comments := hit.num_comments.getD 0
    created_at := hit.created_at
    author := hit.author }

/-- The filter + map stages of searchHackerNewsForEssay applied to the
pooled hit list. -/
def acceptedPosts (essay : Essay) (allResults : List Hit) : List Post :=
  (allResults.filter (isRelevantHit essay)).map toPost

/-- The duplicate-removal stage (lines 70-73 of src/searchHackerNews.js):
`.filter((post, index, self) => index === self.findIndex(p => p.id === post.id))`,
translated literally via the enumerated list. -/
def dedupeById (l : List Post) : List Post :=
  ((l.enum.filter
      (fun ip => l.findIdx (fun p => p.id == ip.2.id) == ip.1)).map Prod.snd)

/-- The ordering used by `.sort((a, b) => b.points - a.points)`: a stable
sort that places higher-points posts first.  ES2019 requires
Array.prototype.sort to be stable, so a stable insertion sort is a
faithful model. -/
def byPointsDesc (a b : Post) : Prop :=
  b.points ≤ a.points

instance : DecidableRel byPointsDesc := fun a b => Nat.decLe b.points a.points

instance : IsTotal Post byPointsDesc :=
  ⟨fun a b => (Nat.le_total b.points a.points).elim Or.inl Or.inr⟩

instance : IsTrans Post byPointsDesc :=
  ⟨fun _ _ _ hab hbc => Nat.le_trans hbc hab⟩

/-- The full result pipeline of searchHackerNewsForEssay (lines 46-77):
filter by the Match Scorer, map to post records, deduplicate by HN item
id, sort by points descending (stable). -/
def relevantPosts (essay : Essay) (allResults : List Hit) : List Post :=
  List.insertionSort byPointsDesc (dedupeById (acceptedPosts essay allResults))

/-- One stored result entry: the value written to
`state.results[essay.title]` by markEssayProcessed
(src/progressTracker.js lines 106-113). -/
structure ResultEntry where
  essay : Essay
  hn_posts : List Post
  total_posts : Nat
  max_points : Nat
  processed_at : String
  deriving DecidableEq, Repr

/-- `hnPosts.length > 0 ? Math.max(...hnPosts.map(p => p.points)) : 0`. -/
def maxPointsOf (posts : List Post) : Nat :=
  if 0 < posts.length then (posts.map Post.points).foldl Nat.max 0 else 0

/-- The result entry built by markEssayProcessed. -/
def mkResultEntry (essay : Essay) (hnPosts : List Post) (now : String) : ResultEntry :=
  { essay := essay
    hn_posts := hnPosts
    total_posts := hnPosts.length
    max_points := maxPointsOf hnPosts
    processed_at := now }

/-- The in-memory session state of the ProgressTracker
(src/progressTracker.js lines 12-20).  The JS object `results` is an
insertion-ordered string-keyed map, modelled as an association list with
JS object-assignment semantics (see setKey).  `totalEssays` is absent
until initializeEssays sets it. -/
structure SessionState where
  sessionId : String
  startTime : String
  essays : List Essay
  processedEssays : List String
  results : List (String × ResultEntry)
  currentIndex : Nat
  completed : Bool
  totalEssays : Option Nat
  deriving DecidableEq, Repr

/-- JS object property assignment `m[k] = v`: overwrite the value in
place when the key exists, otherwise append the new key. -/
def setKey (m : List (String × ResultEntry)) (k : String) (v : ResultEntry) :
    List (String × ResultEntry) :=
  if m.any (fun kv => kv.1 == k) then
    m.map (fun kv => if kv.1 == k then (k, v) else kv)
  else m ++ [(k, v)]

/-- JS object property read `m[k]`. -/
def getKey (m : List (String × ResultEntry)) (k : String) : Option ResultEntry :=
  (m.find? (fun kv => kv.1 == k)).map Prod.snd

/-- The fresh state built by the ProgressTracker constructor
(src/progressTracker.js lines 12-20); `now` models `new Date().toISOString()`. -/
def initialState (sessionId : String) (now : String) : SessionState :=
  { sessionId := sessionId
    startTime := now
    essays := []
    processedEssays := []
    results := []
    currentIndex := 0
    completed := false
    totalEssays := none }

/-- The ProgressTracker object: sessionId, the two file names, and the
mutable state (src/progressTracker.js constructor). -/
structure Tracker where
  sessionId : String
  progressFile : String
  resultsFile : String
  state : SessionState
  deriving DecidableEq, Repr

/-- `new ProgressTracker(sessionId)` with an explicit sessionId. -/
def newTracker (sessionId : String) (now : String) : Tracker :=
  { sessionId := sessionId
    progressFile := "progress-" ++ sessionId ++ ".json"
    resultsFile := "results-" ++ sessionId ++ ".json"
    state := initialState sessionId now }

/-- ProgressTracker.loadSession (src/progressTracker.js lines 28-40):
build a fresh tracker, then try to read and parse the progress file;
on success replace the state, on any error keep the fresh state.  The
`disk` argument models the combined read-and-parse outcome. -/
def loadSession (sessionId : String) (now : String)
    (disk : Except Unit SessionState) : Tracker :=
  let tracker := newTracker sessionId now
  match disk with
  | Except.ok progressData => { tracker with state := progressData }
  | Except.error _ => tracker

/-- initializeEssays (src/progressTracker.js lines 64-69): attach the
essay list and the total count. -/
def initializeEssays (st : SessionState) (essays : List Essay) : SessionState :=
  { st with essays := essays, totalEssays := some essays.length }

/-- The state mutation performed by markEssayProcessed
(src/progressTracker.js lines 104-114): push the title, store the result
entry under the title, increment the counter. -/
def markEssayProcessed (st : SessionState) (essay : Essay) (hnPosts : List Post)
    (now : String) : SessionState :=
  { st with
    processedEssays := st.processedEssays ++ [essay.title]
    results := setKey st.results essay.title (mkResultEntry essay hnPosts now)
    currentIndex := st.currentIndex + 1 }

/-- getRemainingEssays (src/progressTracker.js lines 132-137): the essays
whose title is not in the processed set. -/
def getRemainingEssays (st : SessionState) : List Essay :=
  st.essays.filter (fun essay => !(st.processedEssays.contains essay.title))

/-- isComplete (src/progressTracker.js lines 143-145):
`processedEssays.length >= essays.length`. -/
def isComplete (st : SessionState) : Bool :=
  st.essays.length ≤ st.processedEssays.length

/-- `this.state.totalEssays || this.state.essays.length` from getStats:
JS falls back on the essay-list length when totalEssays is undefined or 0. -/
def totalOf (st : SessionState) : Nat :=
  match st.totalEssays with
  | some n => if n = 0 then st.essays.length else n
  | none => st.essays.length

/-- The percentage value of getStats: a string when total > 0, the
number 0 otherwise (JS `total > 0 ? (...).toFixed(1) : 0`). -/
inductive Percent where
  | str (s : String)
  | num (n : Nat)
  deriving DecidableEq, Repr

/-- JS `x.toFixed(1)` for the exact rational value num/den (round to
nearest tenth, ties rounded up), rendered as a decimal string. -/
def toFixed1 (num den : Nat) : String :=
  let q := num * 10 / den
  let r := num * 10 % den
  let rounded := if den ≤ 2 * r then q + 1 else q
  toString (rounded / 10) ++ "." ++ toString (rounded % 10)

/-- The record returned by getStats (src/progressTracker.js lines 172-185). -/
structure Stats where
  sessionId : String
  processed : Nat
  total : Nat
  percentage : Percent
  remaining : Int
  hasResults : Bool
  deriving DecidableEq, Repr

/-- getStats, translated from src/progressTracker.js lines 172-185. -/
def getStats (t : Tracker) : Stats :=
  let processed := t.state.processedEssays.length
  let total := totalOf t.state
  { sessionId := t.sessionId
    processed := processed
    total := total
    percentage :=
      if 0 < total then Percent.str (toFixed1 (processed * 100) total)
      else Percent.num 0
    remaining := (total : Int) - (processed : Int)
    hasResults := 0 < t.state.results.length }

/-- The external world seen by saveProgress / saveResults: the two
per-session files. -/
structure World where
  progressFile : Option SessionState
  resultsFile : Option (List (String × ResultEntry))
  deriving DecidableEq, Repr

/-- saveProgress (src/progressTracker.js lines 74-83): try to write the
state; a failing write (`ok = false`) is caught and logged, so the
returned thrown-flag is always false and on failure the file keeps its
old content. -/
def saveProgress (st : SessionState) (ok : Bool) (w : World) : World × Bool :=
  (if ok then { w with progressFile := some st } else w, false)

/-- saveResults (src/progressTracker.js lines 88-97), same shape. -/
def saveResults (st : SessionState) (ok : Bool) (w : World) : World × Bool :=
  (if ok then { w with resultsFile := some st.results } else w, false)

/-- The whole markEssayProcessed call including its persistence step
(lines 104-126): mutate the in-memory state, then attempt both writes;
`okP` / `okR` say whether the progress / results write succeeds.  The
final Bool is whether the call rejects. -/
def markEssayProcessedRun (st : SessionState) (essay : Essay) (hnPosts : List Post)
    (now : String) (okP okR : Bool) (w : World) : SessionState × World × Bool :=
  let st1 := markEssayProcessed st essay hnPosts now
  let r1 := saveProgress st1 okP w
  let r2 := saveResults st1 okR r1.1
  (st1, r2.1, r1.2 || r2.2)

/-- A sequence of markEssayProcessed calls (essay, posts, timestamp). -/
def runCalls (st : SessionState) (calls : List (Essay × List Post × String)) :
    SessionState :=
  calls.foldl (fun s c => markEssayProcessed s c.1 c.2.1 c.2.2) st

/-- Outcome of one searchHackerNewsForEssay call as seen by the batch
runner: either a resolved post list or a thrown error. -/
inductive SearchOutcome where
  | ok (posts : List Post)
  | err
  deriving DecidableEq, Repr

/-- The post list the batch runner records for an outcome: the resolved
posts on success, `[]` in the catch branch (src/unnamed/part_000 line 54). -/
def outcomePosts : SearchOutcome → List Post
  | SearchOutcome.ok posts => posts
  | SearchOutcome.err => []

/-- Observable actions of the batch runner: a Search Client invocation,
a caught per-item error, a recordProcessed call, an inter-batch sleep. -/
inductive Event where
  | searched (title : String)
  | errored (title : String)
  | recorded (title : String) (posts : List Post)
  | delayed (ms : Nat)
  deriving DecidableEq, Repr

def isSearchedEv : Event → Bool
  | Event.searched _ => true
  | _ => false

def isRecordedEv : Event → Bool
  | Event.recorded _ _ => true
  | _ => false

def isDelayedEv : Event → Bool
  | Event.delayed _ => true
  | _ => false

/-- The events produced for one essay of a batch (the async closure at
src/unnamed/part_000 lines 35-63): search, then on success record the
posts, on a thrown error record the empty list. -/
def eventsFor (search : Essay → SearchOutcome) (essay : Essay) : List Event :=
  match search essay with
  | SearchOutcome.ok posts =>
      [Event.searched essay.title, Event.recorded essay.title posts]
  | SearchOutcome.err =>
      [Event.searched essay.title, Event.errored essay.title,
       Event.recorded essay.title []]

/-- One batch (src/unnamed/part_000 lines 35-66): every member is
searched and recorded via markEssayProcessed; a thrown search is caught
and recorded with the empty post list. -/
def runBatch (search : Essay → SearchOutcome) (now : String) :
    SessionState → List Essay → SessionState × List Event
  | st, [] => (st, [])
  | st, essay :: rest =>
      let st1 := markEssayProcessed st essay (outcomePosts (search essay)) now
      let r := runBatch search now st1 rest
      (r.1, eventsFor search essay ++ r.2)

/-- The batch loop (src/unnamed/part_000 lines 25-92): run each batch in
turn, sleeping `delayMs` after every batch except the last
(`if (i + batchSize < remainingEssays.length)`). -/
def runBatches (search : Essay → SearchOutcome) (now : String) (delayMs : Nat) :
    SessionState → List (List Essay) → SessionState × List Event
  | st, [] => (st, [])
  | st, [batch] => runBatch search now st batch
  | st, batch :: batch2 :: rest =>
      let r1 := runBatch search now st batch
      let r2 := runBatches search now delayMs r1.1 (batch2 :: rest)
      (r2.1, r1.2 ++ Event.delayed delayMs :: r2.2)

/-- The slices `remainingEssays.slice(i, i + batchSize)` for
i = 0, batchSize, 2*batchSize, ... produced by the for-loop at
src/unnamed/part_000 line 25, computed with a structural fuel argument
(the loop terminates for every positive batchSize). -/
def chunksGo (n : Nat) : Nat → List α → List (List α)
  | _, [] => []
  | 0, _ :: _ => []
  | fuel + 1, x :: xs => ((x :: xs).take n) :: chunksGo n fuel ((x :: xs).drop n)

/-- The batch decomposition of a list: consecutive slices of width n. -/
def chunks (n : Nat) (l : List α) : List (List α) :=
  chunksGo n l.length l

/-- processEssaysInParallel (src/unnamed/part_000 lines 11-95): compute
the remaining essays from the tracker, process them in batches of
`batchSize`, with `delayMs` sleeps between batches.  The `essays`
argument is only logged by the source, never processed.  Timestamps are
irrelevant to every stated property and passed as "". -/
def processEssaysInParallel (search : Essay → SearchOutcome) (essays : List Essay)
    (st : SessionState) (batchSize : Nat) (delayMs : Nat) :
    SessionState × List Event :=
  runBatches search "" delayMs st (chunks batchSize (getRemainingEssays st))

/-- Concrete essays used by the worked examples in the claims. -/
def itemOne : Essay :=
  { title := "Essay One", url := "pg.com/one.html", slug := "one" }

def itemTwo : Essay :=
  { title := "Essay Two", url := "pg.com/two.html", slug := "two" }

def itemThree : Essay :=
  { title := "Essay Three", url := "pg.com/three.html", slug := "three" }

def itemFour : Essay :=
  { title := "Essay Four", url := "pg.com/four.html", slug := "four" }

def itemFive : Essay :=
  { title := "Essay Five", url := "pg.com/five.html", slug := "five" }

/-- A store seeded with three essays (claim C7). -/
def exampleSeeded : SessionState :=
  initializeEssays (initialState "session1" "t0") [itemOne, itemTwo, itemThree]

/-- The C7 scenario: recordProcessed called for item 1 and item 3 only. -/
def exampleProcessed13 : SessionState :=
  markEssayProcessed (markEssayProcessed exampleSeeded itemOne [] "t1")
    itemThree [] "t2"

/-- A store seeded with five essays, none processed (claim C5 example). -/
def exampleSeeded5 : SessionState :=
  initializeEssays (initialState "session5" "t0")
    [itemOne, itemTwo, itemThree, itemFour, itemFive]

/-- A search function that finds nothing (used to instantiate examples). -/
def searchNone : Essay → SearchOutcome :=
  fun _ => SearchOutcome.ok []

/-- A search function that throws for the second example essay and
resolves with no posts for every other essay. -/
def searchErrTwo : Essay → SearchOutcome :=
  fun e => if e.title == "Essay Two" then SearchOutcome.err else SearchOutcome.ok []

/-- A concrete essay whose canonical url is lower-case (claim C2). -/
def essayGH : Essay :=
  { title := "Great Hackers", url := "pg.com/gh.html", slug := "gh" }

/-- A concrete hit whose url is the essay url in upper case (claim C2). -/
def hitUpper : Hit :=
  { objectID := "101"
    title := some "A Discussion"
    url := some "PG.COM/GH.HTML"
    story_text := none
    points := some 10
    num_comments := some 1
    created_at := "2020"
    author := "x" }

/-! ## Helper lemmas -/

/-- The Bool substring test agrees with the contiguous-sublist relation. -/
theorem includes_iff (pat : List Char) :
    ∀ s : List Char, includes s pat = true ↔ pat <:+: s := by
  intro s
  induction s with
  | nil =>
    simp [includes, List.isEmpty_iff, List.infix_nil]
  | cons c rest ih =>
    rw [includes, Bool.or_eq_true, ih, List.infix_cons_iff,
      List.isPrefixOf_iff_prefix]

/-- Assigning a key absent from a JS object appends the pair. -/
theorem setKey_of_not_mem (m : List (String × ResultEntry)) (k : String)
    (v : ResultEntry) (h : k ∉ m.map Prod.fst) : setKey m k v = m ++ [(k, v)] := by
  have hany : m.any (fun kv => kv.1 == k) = false := by
    rw [List.any_eq_false]
    intro kv hkv
    simp only [beq_iff_eq]
    intro he
    exact h (List.mem_map.mpr ⟨kv, hkv, he⟩)
  simp [setKey, hany]

/-- Overwriting every matching pair makes the first find return the new
value exactly when the key was present. -/
theorem find?_map_replace (m : List (String × ResultEntry)) (k : String)
    (v : ResultEntry) :
    (m.map (fun kv => if kv.1 == k then (k, v) else kv)).find? (fun kv => kv.1 == k)
      = if m.any (fun kv => kv.1 == k) then some (k, v) else none := by
  induction m with
  | nil => rfl
  | cons a t ih =>
    rw [List.map_cons, List.any_cons]
    cases hak : (a.1 == k) with
    | true =>
      rw [if_pos rfl, List.find?_cons_of_pos _ (by simp), Bool.true_or, if_pos rfl]
    | false =>
      rw [if_neg (by simp), List.find?_cons_of_neg _ (by simp [hak]),
        Bool.false_or, ih]

/-- Reading a key right after writing it returns the written value. -/
theorem getKey_setKey_self (m : List (String × ResultEntry)) (k : String)
    (v : ResultEntry) : getKey (setKey m k v) k = some v := by
  unfold setKey getKey
  cases hany : m.any (fun kv => kv.1 == k) with
  | true =>
    simp only [hany, if_true]
    rw [find?_map_replace, hany]
    rfl
  | false =>
    have hnone : m.find? (fun kv => kv.1 == k) = none := by
      rw [List.find?_eq_none]
      intro kv hkv
      have := List.any_eq_false.mp hany kv hkv
      simpa using this
    simp [hany, List.find?_append, hnone]

/-- Invariant propagation for sequences of markEssayProcessed calls with
never-before-seen titles: the result keys track the processed list and
the processed count tracks the counter. -/
theorem runCalls_inv (calls : List (Essay × List Post × String)) :
    ∀ st : SessionState,
      (calls.map (fun c => c.1.title)).Nodup →
      (∀ c ∈ calls, c.1.title ∉ st.results.map Prod.fst) →
      st.results.map Prod.fst = st.processedEssays →
      st.processedEssays.length = st.currentIndex →
      (runCalls st calls).results.map Prod.fst = (runCalls st calls).processedEssays
      ∧ (runCalls st calls).processedEssays.length = (runCalls st calls).currentIndex := by
  induction calls with
  | nil =>
    intro st _ _ h1 h2
    exact ⟨h1, h2⟩
  | cons c cs ih =>
    intro st hnd hfresh h1 h2
    have hc : c.1.title ∉ st.results.map Prod.fst := hfresh c (by simp)
    have hset := setKey_of_not_mem st.results c.1.title
      (mkResultEntry c.1 c.2.1 c.2.2) hc
    have hstep : runCalls st (c :: cs) = runCalls (markEssayProcessed st c.1 c.2.1 c.2.2) cs := rfl
    rw [hstep]
    rw [List.map_cons] at hnd
    have hpair := List.nodup_cons.mp hnd
    have hnd2 : (cs.map (fun c => c.1.title)).Nodup := hpair.2
    have hnotin : c.1.title ∉ cs.map (fun c => c.1.title) := hpair.1
    apply ih
    · exact hnd2
    · intro c' hc'
      simp only [markEssayProcessed, hset, List.map_append]
      intro hmem
      rcases List.mem_append.mp hmem with hl | hr
      · exact hfresh c' (List.mem_cons_of_mem _ hc') hl
      · simp only [List.map_cons, List.map_nil, List.mem_singleton] at hr
        exact hnotin (hr ▸ List.mem_map.mpr ⟨c', hc', rfl⟩)
    · simp only [markEssayProcessed, hset, List.map_append, h1]
      rfl
    · simp only [markEssayProcessed, List.length_append, h2]
      rfl

/-! ## Claim theorems -/

/-- C1 (counterexample): calling markEssayProcessed twice with the same
essay starting from a fresh store gives a processed list of length 2 but
a results mapping with a single key, so the claimed three-way equality
fails for this call sequence. -/
theorem checkpoint_invariant_cex :
    ¬ ((runCalls (initialState "s" "t") [(itemOne, [], "u1"), (itemOne, [], "u2")]).processedEssays.length
        = (runCalls (initialState "s" "t") [(itemOne, [], "u1"), (itemOne, [], "u2")]).results.length) := by
  decide

/-- C1 (amended): for every sequence of markEssayProcessed calls with
pairwise-distinct essay titles on a fresh Checkpoint Store, the length of
the processed list, the counter, and the number of keys of the results
mapping are all equal. -/
theorem checkpoint_invariant_distinct (sessionId t0 : String)
    (calls : List (Essay × List Post × String))
    (h : (calls.map (fun c => c.1.title)).Nodup) :
    (runCalls (initialState sessionId t0) calls).processedEssays.length
      = (runCalls (initialState sessionId t0) calls).currentIndex
    ∧ (runCalls (initialState sessionId t0) calls).currentIndex
      = (runCalls (initialState sessionId t0) calls).results.length := by
  obtain ⟨hkeys, hlen⟩ := runCalls_inv calls (initialState sessionId t0) h
    (by intro c hc; simp [initialState]) rfl rfl
  refine ⟨hlen, ?_⟩
  have h3 : (runCalls (initialState sessionId t0) calls).results.length
      = (runCalls (initialState sessionId t0) calls).processedEssays.length := by
    have := congrArg List.length hkeys
    simpa using this
  rw [← hlen, h3]

/-- C1 witness: the amended invariant holds at a concrete two-call
sequence with distinct titles. -/
theorem checkpoint_invariant_distinct_witness :
    (([(itemOne, ([], "u1")), (itemTwo, ([], "u2"))] : List (Essay × List Post × String)).map
        (fun c => c.1.title)).Nodup
    ∧ ((runCalls (initialState "s" "t") [(itemOne, ([], "u1")), (itemTwo, ([], "u2"))]).processedEssays.length
        = (runCalls (initialState "s" "t") [(itemOne, ([], "u1")), (itemTwo, ([], "u2"))]).currentIndex
      ∧ (runCalls (initialState "s" "t") [(itemOne, ([], "u1")), (itemTwo, ([], "u2"))]).currentIndex
        = (runCalls (initialState "s" "t") [(itemOne, ([], "u1")), (itemTwo, ([], "u2"))]).results.length) :=
  ⟨by decide,
   checkpoint_invariant_distinct "s" "t" [(itemOne, ([], "u1")), (itemTwo, ([], "u2"))] (by decide)⟩

/-- C2 (counterexample): a hit whose url is the essay url written in
upper case is rejected by the source Match Scorer but accepted by the
all-tests-case-insensitive scorer the claim describes, so the claimed
equivalence fails at this input. -/
theorem matchScorer_caseInsensitive_cex :
    ¬ (isRelevantHit essayGH hitUpper = true ↔ isRelevantHitCI essayGH hitUpper = true) := by
  decide

/-- C2 (amended): only the title test is case-insensitive (both sides
lowercased); the two url tests and the story_text test are case-sensitive
substring tests, and the story_text test also requires a non-empty body.
The hit is judged relevant exactly when this disjunction holds. -/
theorem matchScorer_decision_amended (essay : Essay) (hit : Hit) :
    isRelevantHit essay hit = true ↔
      (lower essay.title <:+: lower (hit.title.getD "")
       ∨ essay.url.data <:+: (hit.url.getD "").data
       ∨ ("paulgraham.com/" ++ essay.slug).data <:+: (hit.url.getD "").data
       ∨ (∃ st, hit.story_text = some st ∧ st ≠ "" ∧ essay.url.data <:+: st.data)) := by
  unfold isRelevantHit storyTextContains
  cases hst : hit.story_text with
  | none =>
    simp only [hst, Bool.or_eq_true, includes_iff]
    simp only [Option.some.injEq, reduceCtorEq, false_and, exists_false, or_false]
    tauto
  | some st =>
    simp only [hst, Bool.or_eq_true, Bool.and_eq_true, Bool.not_eq_true',
      beq_eq_false_iff_ne, ne_eq, includes_iff, Option.some.injEq,
      exists_eq_left, exists_eq_left']
    tauto

/-- C7: a Checkpoint Store seeded with 3 items, after recordProcessed on
items 1 and 3 only, has remaining list exactly the second item,
isComplete false, and stats percentage the string 66.7. -/
theorem checkpoint_concrete_example :
    getRemainingEssays exampleProcessed13 = [itemTwo]
    ∧ isComplete exampleProcessed13 = false
    ∧ (getStats { newTracker "session1" "t0" with state := exampleProcessed13 }).percentage
        = Percent.str "66.7" := by
  refine ⟨by decide, by decide, by decide⟩

/-- C8: even when the progress write or the results write fails, the
markEssayProcessed call resolves without throwing, and the in-memory
state keeps the appended processed entry, the stored result entry under
the essay title, and the incremented counter. -/
theorem persistence_failure_swallowed (st : SessionState) (essay : Essay)
    (hnPosts : List Post) (now : String) (okP okR : Bool) (w : World) :
    (markEssayProcessedRun st essay hnPosts now okP okR w).2.2 = false
    ∧ (markEssayProcessedRun st essay hnPosts now okP okR w).1.processedEssays
        = st.processedEssays ++ [essay.title]
    ∧ getKey (markEssayProcessedRun st essay hnPosts now okP okR w).1.results essay.title
        = some (mkResultEntry essay hnPosts now)
    ∧ (markEssayProcessedRun st essay hnPosts now okP okR w).1.currentIndex
        = st.currentIndex + 1 := by
  refine ⟨rfl, rfl, ?_, rfl⟩
  exact getKey_setKey_self st.results essay.title (mkResultEntry essay hnPosts now)

/-- C9: loadSession is total; when the progress file read or parse fails
it returns a tracker carrying a fresh empty SessionState for the same
session identifier, and when the read succeeds it carries the parsed
state. -/
theorem loadSession_resume_best_effort (sessionId now : String) (s : SessionState) :
    loadSession sessionId now (Except.error ()) = newTracker sessionId now
    ∧ (loadSession sessionId now (Except.error ())).state = initialState sessionId now
    ∧ (loadSession sessionId now (Except.error ())).sessionId = sessionId
    ∧ (loadSession sessionId now (Except.error ())).state.sessionId = sessionId
    ∧ (loadSession sessionId now (Except.ok s)).state = s :=
  ⟨rfl, rfl, rfl, rfl, rfl⟩

/-- C10: a freshly constructed, never-seeded ProgressTracker state
reports isComplete = true, because the completion test is
processed-count at least essay-count and both counts are 0. -/
theorem fresh_tracker_isComplete (sessionId now : String) :
    isComplete (initialState sessionId now) = true := rfl

/-- find? returns the element sitting at the index computed by findIdx. -/
theorem find?_eq_getElem?_findIdx (p : α → Bool) :
    ∀ l : List α, l.find? p = l[l.findIdx p]? := by
  intro l
  induction l with
  | nil => rfl
  | cons a t ih =>
    rw [List.findIdx_cons]
    cases hpa : p a with
    | true => simp [List.find?_cons_of_pos _ hpa, hpa]
    | false =>
      have hpa2 : ¬ p a = true := by simp [hpa]
      simp [List.find?_cons_of_neg _ hpa2, hpa, ih]

/-- The findIndex-based duplicate filter yields a subsequence of its
input (order preserved, elements drawn from the input). -/
theorem dedupeById_sublist (l : List Post) : (dedupeById l).Sublist l := by
  have h : ((l.enum.filter fun ip => l.findIdx (fun p => p.id == ip.2.id) == ip.1).map
      Prod.snd).Sublist (l.enum.map Prod.snd) :=
    List.Sublist.map Prod.snd (List.filter_sublist l.enum)
  rw [List.enum_map_snd] at h
  exact h

/-- After the duplicate filter, all post ids are distinct. -/
theorem dedupeById_ids_nodup (l : List Post) : ((dedupeById l).map Post.id).Nodup := by
  have hsub : (l.enum.filter fun ip => l.findIdx (fun p => p.id == ip.2.id) == ip.1).Sublist
      l.enum :=
    List.filter_sublist l.enum
  have henum : (l.enum.map Prod.fst).Nodup := by
    rw [List.enum_map_fst]
    exact List.nodup_range _
  have hfst : ((l.enum.filter fun ip => l.findIdx (fun p => p.id == ip.2.id) == ip.1).map
      Prod.fst).Nodup :=
    List.Nodup.sublist (List.Sublist.map Prod.fst hsub) henum
  have hcong : (l.enum.filter fun ip => l.findIdx (fun p => p.id == ip.2.id) == ip.1).map Prod.fst
      = (l.enum.filter fun ip => l.findIdx (fun p => p.id == ip.2.id) == ip.1).map
          (fun ip => l.findIdx (fun p => p.id == ip.2.id)) := by
    apply List.map_congr_left
    intro x hx
    exact (eq_of_beq (List.mem_filter.mp hx).2).symm
  rw [hcong] at hfst
  have hrw : (l.enum.filter fun ip => l.findIdx (fun p => p.id == ip.2.id) == ip.1).map
        (fun ip => l.findIdx (fun p => p.id == ip.2.id))
      = ((dedupeById l).map Post.id).map (fun i => l.findIdx (fun p => p.id == i)) := by
    unfold dedupeById
    rw [List.map_map, List.map_map]
    rfl
  rw [hrw] at hfst
  exact List.Nodup.of_map _ hfst

/-- Every input id is represented in the deduplicated list by the FIRST
post carrying that id (first occurrence wins). -/
theorem dedupeById_first_occ (l : List Post) :
    ∀ q ∈ l, ∃ p, l.find? (fun r => r.id == q.id) = some p ∧ p ∈ dedupeById l := by
  intro q hq
  cases hfind : l.find? (fun r => r.id == q.id) with
  | none =>
    exact absurd (by simp : ((fun r : Post => r.id == q.id) q) = true)
      (List.find?_eq_none.mp hfind q hq)
  | some p =>
    refine ⟨p, rfl, ?_⟩
    have hpq : p.id = q.id := by
      have := List.find?_some hfind
      simpa using this
    have hidx := find?_eq_getElem?_findIdx (fun r => r.id == q.id) l
    rw [hfind] at hidx
    unfold dedupeById
    apply List.mem_map.mpr
    refine ⟨(l.findIdx (fun r => r.id == q.id), p), ?_, rfl⟩
    apply List.mem_filter.mpr
    refine ⟨List.mem_enum_iff_getElem?.mpr hidx.symm, ?_⟩
    show (l.findIdx (fun p2 => p2.id == (l.findIdx (fun r => r.id == q.id), p).2.id)
        == (l.findIdx (fun r => r.id == q.id), p).1) = true
    simp only [hpq]
    simp

/-- Inserting a post with the stable descending order keeps the
equal-points subsequence intact, with the new post placed after every
earlier equal-points post. -/
theorem filter_points_orderedInsert (pts : Nat) (a : Post) (l : List Post) :
    (List.orderedInsert byPointsDesc a l).filter (fun x => x.points == pts)
      = if a.points == pts then a :: l.filter (fun x => x.points == pts)
        else l.filter (fun x => x.points == pts) := by
  induction l with
  | nil =>
    rw [List.orderedInsert_nil]
    cases hap : (a.points == pts) <;> simp [List.filter_cons, hap]
  | cons b t ih =>
    simp only [List.orderedInsert]
    by_cases hr : byPointsDesc a b
    · rw [if_pos hr]
      cases hap : (a.points == pts) <;> simp [List.filter_cons, hap]
    · rw [if_neg hr]
      cases hap : (a.points == pts) with
      | false => simp [List.filter_cons, ih, hap]
      | true =>
        have h1 : a.points < b.points := Nat.lt_of_not_le (by simpa [byPointsDesc] using hr)
        have h2 : a.points = pts := by simpa using hap
        have hbp : (b.points == pts) = false := by
          simp only [beq_eq_false_iff_ne, ne_eq]
          omega
        simp [List.filter_cons, ih, hap, hbp]

/-- The stable insertion sort never reorders posts of equal points. -/
theorem filter_points_insertionSort (pts : Nat) (l : List Post) :
    (List.insertionSort byPointsDesc l).filter (fun x => x.points == pts)
      = l.filter (fun x => x.points == pts) := by
  induction l with
  | nil => rfl
  | cons a t ih =>
    simp only [List.insertionSort]
    rw [filter_points_orderedInsert]
    cases hap : (a.points == pts) <;> simp [List.filter_cons, hap, ih]

/-- C3: the MatchResult is exactly the scorer-accepted posts with
duplicates by objectID removed keeping the first occurrence in pooled
order, sorted by non-increasing points, with equal-points posts kept in
their original discovery order: it is a permutation of the deduplicated
accepted list, pairwise sorted, with pairwise-distinct ids; the
deduplicated list is a subsequence of the accepted list in which every
accepted id is represented by its first occurrence; and restricting the
sorted output to any fixed points value reproduces the deduplicated
sublist unchanged. -/
theorem matchResult_pipeline_spec (essay : Essay) (allResults : List Hit) :
    (relevantPosts essay allResults).Perm (dedupeById (acceptedPosts essay allResults))
    ∧ List.Pairwise (fun a b : Post => b.points ≤ a.points) (relevantPosts essay allResults)
    ∧ ((relevantPosts essay allResults).map Post.id).Nodup
    ∧ (dedupeById (acceptedPosts essay allResults)).Sublist (acceptedPosts essay allResults)
    ∧ (∀ q ∈ acceptedPosts essay allResults,
        ∃ p, (acceptedPosts essay allResults).find? (fun r => r.id == q.id) = some p
          ∧ p ∈ dedupeById (acceptedPosts essay allResults))
    ∧ (∀ pts : Nat,
        (relevantPosts essay allResults).filter (fun x => x.points == pts)
          = (dedupeById (acceptedPosts essay allResults)).filter (fun x => x.points == pts)) := by
  refine ⟨List.perm_insertionSort _ _, ?_, ?_, dedupeById_sublist _, dedupeById_first_occ _,
    fun pts => filter_points_insertionSort pts _⟩
  · exact List.sorted_insertionSort byPointsDesc (dedupeById (acceptedPosts essay allResults))
  · have hperm := List.Perm.map Post.id
      (List.perm_insertionSort byPointsDesc (dedupeById (acceptedPosts essay allResults)))
    exact (List.Perm.nodup_iff hperm).mpr (dedupeById_ids_nodup _)

/-- chunksGo of the empty list is empty for every fuel. -/
theorem chunksGo_nil (n : Nat) : ∀ fuel, chunksGo n fuel ([] : List α) = [] := by
  intro fuel
  cases fuel <;> rfl

/-- chunksGo with exhausted fuel is empty. -/
theorem chunksGo_fuel_zero (n : Nat) (l : List α) : chunksGo n 0 l = [] := by
  cases l <;> rfl

/-- With enough fuel, concatenating the slices gives back the list
(positive width). -/
theorem chunksGo_flatten (n : Nat) (hn : 0 < n) :
    ∀ fuel (l : List α), l.length ≤ fuel → (chunksGo n fuel l).flatten = l := by
  intro fuel
  induction fuel with
  | zero =>
    intro l hl
    have : l = [] := List.eq_nil_of_length_eq_zero (Nat.le_zero.mp hl)
    subst this
    rfl
  | succ f ih =>
    intro l hl
    cases l with
    | nil => rfl
    | cons x xs =>
      rw [chunksGo, List.flatten_cons, ih ((x :: xs).drop n)
        (by
          simp only [List.length_drop, List.length_cons]
          simp only [List.length_cons] at hl
          omega)]
      exact List.take_append_drop n (x :: xs)

/-- Every slice except possibly the last has exactly the configured
width. -/
theorem chunksGo_dropLast_length (n : Nat) (hn : 0 < n) :
    ∀ fuel (l : List α), l.length ≤ fuel →
      ∀ b ∈ (chunksGo n fuel l).dropLast, b.length = n := by
  intro fuel
  induction fuel with
  | zero =>
    intro l hl
    have : l = [] := List.eq_nil_of_length_eq_zero (Nat.le_zero.mp hl)
    subst this
    simp [chunksGo_fuel_zero]
  | succ f ih =>
    intro l hl
    cases l with
    | nil => simp [chunksGo_nil]
    | cons x xs =>
      rw [chunksGo]
      cases hrest : chunksGo n f ((x :: xs).drop n) with
      | nil => simp
      | cons c cs =>
        rw [List.dropLast_cons_of_ne_nil (by simp)]
        intro b hb
        rcases List.mem_cons.mp hb with hb1 | hb2
        · subst hb1
          have hdrop : (x :: xs).drop n ≠ [] := by
            intro hd
            rw [hd, chunksGo_nil] at hrest
            exact List.noConfusion hrest
          have hlen : n < xs.length + 1 := by
            by_contra hge
            push_neg at hge
            exact hdrop (List.drop_eq_nil_of_le (by simpa using hge))
          rw [List.length_take]
          simp only [List.length_cons]
          omega
        · have := ih ((x :: xs).drop n)
            (by
              simp only [List.length_drop, List.length_cons]
              simp only [List.length_cons] at hl
              omega) b
          rw [hrest] at this
          exact this hb2

/-- Every slice is nonempty and no longer than the configured width. -/
theorem chunksGo_chunk_bounds (n : Nat) (hn : 0 < n) :
    ∀ fuel (l : List α) b, b ∈ chunksGo n fuel l → b.length ≤ n ∧ b ≠ [] := by
  intro fuel
  induction fuel with
  | zero =>
    intro l b hb
    rw [chunksGo_fuel_zero] at hb
    exact absurd hb (List.not_mem_nil b)
  | succ f ih =>
    intro l b hb
    cases l with
    | nil =>
      rw [chunksGo_nil] at hb
      exact absurd hb (List.not_mem_nil b)
    | cons x xs =>
      rw [chunksGo] at hb
      rcases List.mem_cons.mp hb with hb1 | hb2
      · subst hb1
        constructor
        · rw [List.length_take]
          exact Nat.min_le_left _ _
        · obtain ⟨m, rfl⟩ := Nat.exists_eq_succ_of_ne_zero (Nat.pos_iff_ne_zero.mp hn)
          simp [List.take_cons]
      · exact ih _ b hb2

/-- Every element of a slice is an element of the sliced list. -/
theorem chunksGo_mem_chunk (n : Nat) :
    ∀ fuel (l : List α) b, b ∈ chunksGo n fuel l → ∀ x ∈ b, x ∈ l := by
  intro fuel
  induction fuel with
  | zero =>
    intro l b hb
    rw [chunksGo_fuel_zero] at hb
    exact absurd hb (List.not_mem_nil b)
  | succ f ih =>
    intro l b hb
    cases l with
    | nil =>
      rw [chunksGo_nil] at hb
      exact absurd hb (List.not_mem_nil b)
    | cons y ys =>
      rw [chunksGo] at hb
      rcases List.mem_cons.mp hb with hb1 | hb2
      · subst hb1
        exact fun x hx => List.take_subset n (y :: ys) hx
      · exact fun x hx => List.drop_subset n (y :: ys) (ih _ b hb2 x hx)

/-- The events of one batch are the per-essay events in batch order,
independent of the threaded state. -/
theorem runBatch_snd (search : Essay → SearchOutcome) (now : String) :
    ∀ (batch : List Essay) (st : SessionState),
      (runBatch search now st batch).2 = (batch.map (eventsFor search)).flatten := by
  intro batch
  induction batch with
  | nil => intro st; rfl
  | cons e rest ih =>
    intro st
    simp [runBatch, ih]

/-- Running one batch appends exactly the batch titles to the processed
list. -/
theorem runBatch_fst_processed (search : Essay → SearchOutcome) (now : String) :
    ∀ (batch : List Essay) (st : SessionState),
      (runBatch search now st batch).1.processedEssays
        = st.processedEssays ++ batch.map Essay.title := by
  intro batch
  induction batch with
  | nil => intro st; simp [runBatch]
  | cons e rest ih =>
    intro st
    simp [runBatch, ih, markEssayProcessed]

/-- The searched events of one essay. -/
theorem eventsFor_filter_searched (search : Essay → SearchOutcome) (e : Essay) :
    (eventsFor search e).filter isSearchedEv = [Event.searched e.title] := by
  unfold eventsFor
  cases search e <;> rfl

/-- The recorded events of one essay: exactly one, carrying the resolved
posts on success and the empty list after a caught error. -/
theorem eventsFor_filter_recorded (search : Essay → SearchOutcome) (e : Essay) :
    (eventsFor search e).filter isRecordedEv
      = [Event.recorded e.title (outcomePosts (search e))] := by
  unfold eventsFor outcomePosts
  cases search e <;> rfl

/-- One essay produces no delay events. -/
theorem eventsFor_countP_delayed (search : Essay → SearchOutcome) (e : Essay) :
    (eventsFor search e).countP isDelayedEv = 0 := by
  unfold eventsFor
  cases search e <;> rfl

/-- The searched events of one batch, in batch order. -/
theorem runBatch_filter_searched (search : Essay → SearchOutcome) (now : String)
    (batch : List Essay) (st : SessionState) :
    (runBatch search now st batch).2.filter isSearchedEv
      = batch.map (fun e => Event.searched e.title) := by
  rw [runBatch_snd]
  induction batch with
  | nil => rfl
  | cons e rest ih =>
    simp [List.filter_append, eventsFor_filter_searched, ih]

/-- The recorded events of one batch, in batch order. -/
theorem runBatch_filter_recorded (search : Essay → SearchOutcome) (now : String)
    (batch : List Essay) (st : SessionState) :
    (runBatch search now st batch).2.filter isRecordedEv
      = batch.map (fun e => Event.recorded e.title (outcomePosts (search e))) := by
  rw [runBatch_snd]
  induction batch with
  | nil => rfl
  | cons e rest ih =>
    simp [List.filter_append, eventsFor_filter_recorded, ih]

/-- One batch produces no delay events. -/
theorem runBatch_countP_delayed (search : Essay → SearchOutcome) (now : String)
    (batch : List Essay) (st : SessionState) :
    (runBatch search now st batch).2.countP isDelayedEv = 0 := by
  rw [runBatch_snd]
  induction batch with
  | nil => rfl
  | cons e rest ih =>
    simp [List.countP_append, eventsFor_countP_delayed, ih]

theorem intercalate_nil (sep : List α) : List.intercalate sep [] = [] := by
  simp [List.intercalate]

theorem intercalate_single (sep : List α) (a : List α) :
    List.intercalate sep [a] = a := by
  simp [List.intercalate]

theorem intercalate_cons_cons (sep : List α) (a b : List α) (t : List (List α)) :
    List.intercalate sep (a :: b :: t) = a ++ sep ++ List.intercalate sep (b :: t) := by
  simp [List.intercalate, List.intersperse, List.append_assoc]

/-- The whole run trace: the batch event blocks joined with exactly one
delay event between consecutive batches (never after the last). -/
theorem runBatches_snd_intercalate (search : Essay → SearchOutcome) (now : String)
    (delayMs : Nat) :
    ∀ (bs : List (List Essay)) (st : SessionState),
      (runBatches search now delayMs st bs).2
        = List.intercalate [Event.delayed delayMs]
            (bs.map (fun b => (b.map (eventsFor search)).flatten)) := by
  intro bs
  induction bs with
  | nil =>
    intro st
    rw [List.map_nil, intercalate_nil]
    rfl
  | cons b rest ih =>
    cases rest with
    | nil =>
      intro st
      rw [List.map_cons, List.map_nil, intercalate_single]
      exact runBatch_snd search now b st
    | cons b2 rest2 =>
      intro st
      rw [List.map_cons, List.map_cons, intercalate_cons_cons]
      simp only [runBatches]
      rw [runBatch_snd, ih]
      rw [List.map_cons]
      simp [List.append_assoc]

/-- The run appends exactly the flattened batch titles to the processed
list. -/
theorem runBatches_fst_processed (search : Essay → SearchOutcome) (now : String)
    (delayMs : Nat) :
    ∀ (bs : List (List Essay)) (st : SessionState),
      (runBatches search now delayMs st bs).1.processedEssays
        = st.processedEssays ++ bs.flatten.map Essay.title := by
  intro bs
  induction bs with
  | nil => intro st; simp [runBatches]
  | cons b rest ih =>
    cases rest with
    | nil =>
      intro st
      rw [show runBatches search now delayMs st [b] = runBatch search now st b from rfl,
        runBatch_fst_processed]
      simp
    | cons b2 rest2 =>
      intro st
      simp only [runBatches]
      rw [ih (runBatch search now st b).1, runBatch_fst_processed]
      simp [List.append_assoc]

/-- The searched events of a whole run: every essay of every batch, in
order, exactly once. -/
theorem runBatches_filter_searched (search : Essay → SearchOutcome) (now : String)
    (delayMs : Nat) :
    ∀ (bs : List (List Essay)) (st : SessionState),
      (runBatches search now delayMs st bs).2.filter isSearchedEv
        = bs.flatten.map (fun e => Event.searched e.title) := by
  intro bs
  induction bs with
  | nil => intro st; rfl
  | cons b rest ih =>
    cases rest with
    | nil =>
      intro st
      rw [show runBatches search now delayMs st [b] = runBatch search now st b from rfl,
        runBatch_filter_searched]
      simp
    | cons b2 rest2 =>
      intro st
      simp only [runBatches]
      rw [List.filter_append, List.filter_cons]
      rw [runBatch_filter_searched, ih]
      simp [isSearchedEv]

/-- The recorded events of a whole run: every essay of every batch gets
exactly one recordProcessed, carrying its search outcome. -/
theorem runBatches_filter_recorded (search : Essay → SearchOutcome) (now : String)
    (delayMs : Nat) :
    ∀ (bs : List (List Essay)) (st : SessionState),
      (runBatches search now delayMs st bs).2.filter isRecordedEv
        = bs.flatten.map (fun e => Event.recorded e.title (outcomePosts (search e))) := by
  intro bs
  induction bs with
  | nil => intro st; rfl
  | cons b rest ih =>
    cases rest with
    | nil =>
      intro st
      rw [show runBatches search now delayMs st [b] = runBatch search now st b from rfl,
        runBatch_filter_recorded]
      simp
    | cons b2 rest2 =>
      intro st
      simp only [runBatches]
      rw [List.filter_append, List.filter_cons]
      rw [runBatch_filter_recorded, ih]
      simp [isRecordedEv]

/-- Delay events of a whole run: one fewer than the number of batches. -/
theorem runBatches_countP_delayed (search : Essay → SearchOutcome) (now : String)
    (delayMs : Nat) :
    ∀ (bs : List (List Essay)) (st : SessionState),
      (runBatches search now delayMs st bs).2.countP isDelayedEv = bs.length - 1 := by
  intro bs
  induction bs with
  | nil => intro st; rfl
  | cons b rest ih =>
    cases rest with
    | nil =>
      intro st
      rw [show runBatches search now delayMs st [b] = runBatch search now st b from rfl,
        runBatch_countP_delayed]
      rfl
    | cons b2 rest2 =>
      intro st
      simp only [runBatches]
      rw [List.countP_append, List.countP_cons]
      rw [runBatch_countP_delayed, ih]
      simp [isDelayedEv]

/-- C4: getRemainingEssays returns exactly the subsequence of the essay
list whose titles are not in the processed set, preserving the original
order, and a Batch Runner run over the state never emits a Search Client
invocation for any title in the processed set. -/
theorem remaining_and_no_reprocess (st : SessionState) (search : Essay → SearchOutcome)
    (batchSize delayMs : Nat) :
    getRemainingEssays st = st.essays.filter (fun e => decide (e.title ∉ st.processedEssays))
    ∧ (getRemainingEssays st).Sublist st.essays
    ∧ (∀ e ∈ getRemainingEssays st, e.title ∉ st.processedEssays)
    ∧ (∀ e ∈ st.essays, e.title ∉ st.processedEssays → e ∈ getRemainingEssays st)
    ∧ (∀ t ∈ st.processedEssays,
        Event.searched t ∉ (processEssaysInParallel search st.essays st batchSize delayMs).2) := by
  have hpt : ∀ e ∈ st.essays,
      (!(st.processedEssays.contains e.title)) = decide (e.title ∉ st.processedEssays) := by
    intro e he
    simp [List.contains, List.elem_eq_mem, decide_not]
  have h1 : getRemainingEssays st
      = st.essays.filter (fun e => decide (e.title ∉ st.processedEssays)) :=
    List.filter_congr hpt
  have h3 : ∀ e ∈ getRemainingEssays st, e.title ∉ st.processedEssays := by
    intro e he
    rw [h1] at he
    have := (List.mem_filter.mp he).2
    simpa using this
  refine ⟨h1, List.filter_sublist _, h3, ?_, ?_⟩
  · intro e he hni
    rw [h1]
    exact List.mem_filter.mpr ⟨he, by simpa using hni⟩
  · intro t ht hmem
    have hmem2 : Event.searched t
        ∈ (processEssaysInParallel search st.essays st batchSize delayMs).2.filter isSearchedEv :=
      List.mem_filter.mpr ⟨hmem, rfl⟩
    rw [show (processEssaysInParallel search st.essays st batchSize delayMs).2
          = (runBatches search "" delayMs st (chunks batchSize (getRemainingEssays st))).2 from rfl,
      runBatches_filter_searched] at hmem2
    rcases List.mem_map.mp hmem2 with ⟨e, he, heq⟩
    have het : e.title = t := by
      injection heq
    rcases List.mem_flatten.mp he with ⟨b, hb, heb⟩
    have herem : e ∈ getRemainingEssays st :=
      chunksGo_mem_chunk batchSize (getRemainingEssays st).length (getRemainingEssays st)
        b hb e heb
    exact h3 e herem (het ▸ ht)

/-- C5: with positive width w the Batch Runner partitions the remaining
list into consecutive slices whose concatenation is the list, every
non-final slice of length exactly w and every slice nonempty of length
at most w; the run trace is the batch event blocks joined by single
delay events (one after every batch except the last, hence batch-count
minus one delays); and concretely 5 items at width 2 yield slices of
sizes [2, 2, 1] with the delay occurring exactly twice. -/
theorem batch_partition_spec (search : Essay → SearchOutcome) (st : SessionState)
    (w delayMs : Nat) (hw : 0 < w) :
    (chunks w (getRemainingEssays st)).flatten = getRemainingEssays st
    ∧ (∀ b ∈ (chunks w (getRemainingEssays st)).dropLast, b.length = w)
    ∧ (∀ b ∈ chunks w (getRemainingEssays st), b.length ≤ w ∧ b ≠ [])
    ∧ (processEssaysInParallel search st.essays st w delayMs).2
        = List.intercalate [Event.delayed delayMs]
            ((chunks w (getRemainingEssays st)).map (fun b => (b.map (eventsFor search)).flatten))
    ∧ (processEssaysInParallel search st.essays st w delayMs).2.countP isDelayedEv
        = (chunks w (getRemainingEssays st)).length - 1
    ∧ (chunks 2 (List.range 5)).map List.length = [2, 2, 1]
    ∧ (processEssaysInParallel searchNone exampleSeeded5.essays exampleSeeded5 2 1000).2.countP
        isDelayedEv = 2 := by
  refine ⟨chunksGo_flatten w hw _ _ (Nat.le_refl _),
    chunksGo_dropLast_length w hw _ _ (Nat.le_refl _),
    fun b hb => chunksGo_chunk_bounds w hw _ _ b hb,
    runBatches_snd_intercalate search "" delayMs _ st,
    runBatches_countP_delayed search "" delayMs _ st,
    by decide, by decide⟩

/-- C5 witness: the partition specification instantiated at the concrete
five-essay store with width 2. -/
theorem batch_partition_spec_witness :
    0 < 2
    ∧ ((chunks 2 (getRemainingEssays exampleSeeded5)).flatten = getRemainingEssays exampleSeeded5
      ∧ (∀ b ∈ (chunks 2 (getRemainingEssays exampleSeeded5)).dropLast, b.length = 2)
      ∧ (∀ b ∈ chunks 2 (getRemainingEssays exampleSeeded5), b.length ≤ 2 ∧ b ≠ [])
      ∧ (processEssaysInParallel searchNone exampleSeeded5.essays exampleSeeded5 2 1000).2
          = List.intercalate [Event.delayed 1000]
              ((chunks 2 (getRemainingEssays exampleSeeded5)).map
                (fun b => (b.map (eventsFor searchNone)).flatten))
      ∧ (processEssaysInParallel searchNone exampleSeeded5.essays exampleSeeded5 2 1000).2.countP
          isDelayedEv = (chunks 2 (getRemainingEssays exampleSeeded5)).length - 1
      ∧ (chunks 2 (List.range 5)).map List.length = [2, 2, 1]
      ∧ (processEssaysInParallel searchNone exampleSeeded5.essays exampleSeeded5 2 1000).2.countP
          isDelayedEv = 2) :=
  ⟨by decide, batch_partition_spec searchNone exampleSeeded5 2 1000 (by decide)⟩

/-- C6: during a run every remaining essay is searched exactly once and
recorded exactly once via recordProcessed, in order; an essay whose
search throws is recorded with the empty post list while the rest of its
batch and of the run still execute; and the final state marks every
remaining essay (failed ones included) processed, so no item is searched
twice within the run. -/
theorem batch_error_recovery (search : Essay → SearchOutcome) (st : SessionState)
    (w delayMs : Nat) (hw : 0 < w) :
    (processEssaysInParallel search st.essays st w delayMs).2.filter isSearchedEv
      = (getRemainingEssays st).map (fun e => Event.searched e.title)
    ∧ (processEssaysInParallel search st.essays st w delayMs).2.filter isRecordedEv
      = (getRemainingEssays st).map (fun e => Event.recorded e.title (outcomePosts (search e)))
    ∧ (processEssaysInParallel search st.essays st w delayMs).1.processedEssays
      = st.processedEssays ++ (getRemainingEssays st).map Essay.title
    ∧ (∀ e ∈ getRemainingEssays st, search e = SearchOutcome.err →
        Event.recorded e.title [] ∈ (processEssaysInParallel search st.essays st w delayMs).2) := by
  have hflat : (chunks w (getRemainingEssays st)).flatten = getRemainingEssays st :=
    chunksGo_flatten w hw _ _ (Nat.le_refl _)
  have hr : (processEssaysInParallel search st.essays st w delayMs).2.filter isRecordedEv
      = (getRemainingEssays st).map (fun e => Event.recorded e.title (outcomePosts (search e))) := by
    rw [show (processEssaysInParallel search st.essays st w delayMs).2
        = (runBatches search "" delayMs st (chunks w (getRemainingEssays st))).2 from rfl,
      runBatches_filter_recorded, hflat]
  refine ⟨?_, hr, ?_, ?_⟩
  · rw [show (processEssaysInParallel search st.essays st w delayMs).2
        = (runBatches search "" delayMs st (chunks w (getRemainingEssays st))).2 from rfl,
      runBatches_filter_searched, hflat]
  · rw [show (processEssaysInParallel search st.essays st w delayMs).1
        = (runBatches search "" delayMs st (chunks w (getRemainingEssays st))).1 from rfl,
      runBatches_fst_processed, hflat]
  · intro e he herr
    have hmem : Event.recorded e.title []
        ∈ (processEssaysInParallel search st.essays st w delayMs).2.filter isRecordedEv := by
      rw [hr]
      refine List.mem_map.mpr ⟨e, he, ?_⟩
      rw [herr]
      rfl
    exact List.mem_of_mem_filter hmem

/-- C6 witness: the error-recovery specification instantiated at the
three-essay store with a search that throws on the second essay, width 2. -/
theorem batch_error_recovery_witness :
    0 < 2
    ∧ ((processEssaysInParallel searchErrTwo exampleSeeded.essays exampleSeeded 2 7).2.filter
          isSearchedEv
        = (getRemainingEssays exampleSeeded).map (fun e => Event.searched e.title)
      ∧ (processEssaysInParallel searchErrTwo exampleSeeded.essays exampleSeeded 2 7).2.filter
          isRecordedEv
        = (getRemainingEssays exampleSeeded).map
            (fun e => Event.recorded e.title (outcomePosts (searchErrTwo e)))
      ∧ (processEssaysInParallel searchErrTwo exampleSeeded.essays exampleSeeded 2 7).1.processedEssays
        = exampleSeeded.processedEssays ++ (getRemainingEssays exampleSeeded).map Essay.title
      ∧ (∀ e ∈ getRemainingEssays exampleSeeded, searchErrTwo e = SearchOutcome.err →
          Event.recorded e.title []
            ∈ (processEssaysInParallel searchErrTwo exampleSeeded.essays exampleSeeded 2 7).2)) :=
  ⟨by decide, batch_error_recovery searchErrTwo exampleSeeded 2 7 (by decide)⟩
